import Mathlib

/-
  Verification development for the AutoPVCBB DocX-to-LaTeX converter.
  Shallow embedding of src/utils.py, src/config.py, src/latex_generator.py,
  src/converter.py and src/text_corrector.py.

  Text is modelled as `List Char` (named `Str`), and the Python string
  primitives used by the code (strip, split, replace, join, startswith)
  are defined below with Python semantics.  Machine floats appearing in
  the code (EMU-to-cm conversion, run-length proportions) are modelled
  exactly over `Rat`; the concrete values the claims mention (914400, 0)
  are exactly representable and the operations on them are exact, so the
  rational model agrees with IEEE doubles at every point the theorems use.
  Python exceptions (IndexError in generate_toc, UnboundLocalError in
  extract_sections_list) are modelled as `Option`/`none`.
-/

namespace AutoPVCBB

abbrev Str := List Char

def s2l (s : String) : Str := s.data

/-- Python's whitespace set for str.strip: space, tab, newline, CR, VT, FF. -/
def isSpaceB (c : Char) : Bool :=
  c == ' ' || c == '\t' || c == '\n' || c == '\r' || c == '\x0b' || c == '\x0c'

/-- Python str.lstrip(). -/
def pyLStrip (s : Str) : Str := s.dropWhile isSpaceB

/-- Python str.rstrip(). -/
def pyRStrip (s : Str) : Str := (s.reverse.dropWhile isSpaceB).reverse

/-- Python str.strip(). -/
def pyStrip (s : Str) : Str := pyRStrip (pyLStrip s)

/-- Python substring containment: `pat in s`. -/
def listContains (pat s : Str) : Bool :=
  s.tails.any (fun t => pat.isPrefixOf t)

/-- Locate the first occurrence of `sep` in `s`: returns the part before and
the part after.  `none` when `sep` does not occur (or `sep` is empty, a case
the sources never reach with this helper). -/
def splitOnce (sep : Str) : Str → Option (Str × Str)
  | [] => none
  | c :: rest =>
      if !sep.isEmpty && sep.isPrefixOf (c :: rest) then
        some ([], (c :: rest).drop sep.length)
      else
        (splitOnce sep rest).map (fun pr => (c :: pr.1, pr.2))

/-- Python str.split(sep) (all occurrences), fuel-based recursion. -/
def pySplitAux (sep : Str) : Nat → Str → List Str
  | 0, s => [s]
  | fuel + 1, s =>
      match splitOnce sep s with
      | none => [s]
      | some (a, b) => a :: pySplitAux sep fuel b

/-- Python str.split(sep) for a non-empty separator. -/
def pySplit (sep s : Str) : List Str :=
  if sep.isEmpty then [s] else pySplitAux sep s.length s

/-- Python sep.join(xs). -/
def pyJoin (sep : Str) : List Str → Str
  | [] => []
  | [x] => x
  | x :: xs => x ++ sep ++ pyJoin sep xs

/-- Python str.replace(pat, rep) (all occurrences), fuel-based so that the
kernel can evaluate it.  A step always consumes at least one character of
`s`, so fuel `s.length` suffices. -/
def pyReplaceAux (pat rep : Str) : Nat → Str → Str
  | _, [] => []
  | 0, s => s
  | fuel + 1, c :: rest =>
      if !pat.isEmpty && pat.isPrefixOf (c :: rest) then
        rep ++ pyReplaceAux pat rep fuel ((c :: rest).drop pat.length)
      else
        c :: pyReplaceAux pat rep fuel rest

/-- Python str.replace(pat, rep).  For the empty pattern the sources only
ever pass an empty replacement, for which Python returns the input
unchanged, as does this definition. -/
def pyReplace (pat rep s : Str) : Str := pyReplaceAux pat rep s.length s

/-- Python str.replace(pat, rep, 1): replace the first occurrence only. -/
def pyReplaceOnce (pat rep s : Str) : Str :=
  match splitOnce pat s with
  | some (a, b) => a ++ rep ++ b
  | none => s

/-- Decimal digits of a natural number, fuel-based. -/
def natToStrAux : Nat → Nat → Str
  | 0, n => [Char.ofNat (48 + n % 10)]
  | fuel + 1, n =>
      if n < 10 then [Char.ofNat (48 + n)]
      else natToStrAux fuel (n / 10) ++ [Char.ofNat (48 + n % 10)]

/-- Python str(n) for a natural number. -/
def natToStr (n : Nat) : Str := natToStrAux n n

/-- Python int(s) for a digit string. -/
def strToNat (s : Str) : Nat :=
  s.foldl (fun a c => a * 10 + (c.toNat - 48)) 0

/-! ## Configuration (src/config.py, built-in defaults) -/

/-- Config.LATEX_SPECIAL_CHARS: the built-in default escape table, in
insertion order (Python dicts preserve insertion order). -/
def LATEX_SPECIAL_CHARS : List (Str × Str) :=
  [ (s2l "&", s2l "\\&"),
    (s2l "%", s2l "\\%"),
    (s2l "$", s2l "\\$"),
    (s2l "#", s2l "\\#"),
    (s2l "_", s2l "\\_"),
    (s2l "\x7b", s2l "\\\x7b"),
    (s2l "\x7d", s2l "\\\x7d"),
    (s2l "~", s2l "\\textasciitilde\x7b\x7d"),
    (s2l "^", s2l "\\textasciicircum\x7b\x7d"),
    (s2l "€", s2l "\\euro\x7b\x7d"),
    (s2l "<", s2l "\\textless\x7b\x7d"),
    (s2l ">", s2l "\\textgreater\x7b\x7d"),
    (s2l "°", s2l "\\textdegree\x7b\x7d") ]

/-- Config.ABBREVIATIONS: the built-in defaults.  Each Python pattern has the
shape `\bword\b` (whole word, case-insensitive); this table stores the word
itself, and `wordSub` below implements the `\b`-delimited substitution. -/
def ABBREVIATIONS : List (Str × Str) :=
  [ (s2l "itw", s2l "interview"),
    (s2l "deleg", s2l "délégation"),
    (s2l "déleg", s2l "délégation"),
    (s2l "délég", s2l "délégation"),
    (s2l "qqch", s2l "quelque chose"),
    (s2l "qqun", s2l "quelqu\x27un"),
    (s2l "pcq", s2l "parce que"),
    (s2l "prez", s2l "président"),
    (s2l "trez", s2l "trésorier"),
    (s2l "vp", s2l "vice-président") ]

/-- Config.LATEX_PACKAGES (built-in defaults). -/
def LATEX_PACKAGES : List Str :=
  [ s2l "\\usepackage[T1]\x7bfontenc\x7d",
    s2l "\\usepackage[utf8]\x7binputenc\x7d",
    s2l "\\usepackage[margin=1.2in]\x7bgeometry\x7d",
    s2l "\\geometry\x7ba4paper\x7d",
    s2l "\\usepackage\x7bfancyhdr\x7d",
    s2l "\\usepackage\x7bmulticol\x7d",
    s2l "\\usepackage\x7bgraphicx\x7d",
    s2l "\\usepackage\x7bfloat\x7d",
    s2l "\\usepackage\x7bvarwidth\x7d",
    s2l "\\usepackage\x7btextcomp\x7d",
    s2l "\\usepackage\x7bcsquotes\x7d",
    s2l "\\usepackage[gen]\x7beurosym\x7d" ]

/-- Config.LATEX_SETTINGS (built-in defaults). -/
def LATEX_SETTINGS : List Str :=
  [ s2l "\\pagestyle\x7bfancy\x7d",
    s2l "\\setlength\x7b\\headheight\x7d\x7b22.5pt\x7d",
    s2l "\\setlength\x7b\\parindent\x7d\x7b0pt\x7d",
    s2l "\\setlength\x7b\\parskip\x7d\x7b1em\x7d" ]

/-- Config.BATCH_SEPARATOR. -/
def BATCH_SEPARATOR : Str := s2l "#SEP#"

/-- Config.DEFAULT_LOGO_PATH. -/
def DEFAULT_LOGO_PATH : Str := s2l "../logo.png"

/-! ## TextProcessor (src/utils.py) -/

/-- TextProcessor.escape_latex over an explicit mapping: sequentially apply
`text.replace(char, replacement)` for every pair of the mapping, in its
insertion order. -/
def escape_latex (m : List (Str × Str)) (t : Str) : Str :=
  if t.isEmpty then t
  else m.foldl (fun acc p => pyReplace p.1 p.2 acc) t

/-- TextProcessor.escape_latex with the default configuration table. -/
def escape (t : Str) : Str := escape_latex LATEX_SPECIAL_CHARS t

/-- TextProcessor.capitalize_first_letter: text[0].upper() + text[1:]
(Char.toUpper is the ASCII approximation of Python str.upper on one char). -/
def capitalize_first_letter (t : Str) : Str :=
  match t with
  | [] => []
  | c :: r => c.toUpper :: r

/-- Word character for the regex `\b`, ASCII approximation of Python `\w`. -/
def isWordChar (c : Char) : Bool := c.isAlphanum || c == '_'

/-- Python str.capitalize(): first character uppercased, the rest lowered
(ASCII approximation). -/
def pyCapitalize (s : Str) : Str :=
  match s with
  | [] => []
  | c :: r => c.toUpper :: r.map Char.toLower

/-- Case-insensitive prefix test (ASCII folding, approximating
re.IGNORECASE). -/
def ciPrefixEq (w s : Str) : Bool :=
  decide (w.length ≤ s.length) &&
    decide ((s.take w.length).map Char.toLower = w.map Char.toLower)

/-- Is the position before `s` a `\b` boundary, given the previous char? -/
def boundaryBefore (prev : Option Char) : Bool :=
  match prev with
  | none => true
  | some c => !isWordChar c

/-- Is the position at the start of `s` a `\b` boundary coming out of a word? -/
def boundaryAfter (s : Str) : Bool :=
  match s with
  | [] => true
  | c :: _ => !isWordChar c

/-- One pass of `re.sub(r"\bword\b", rep, text, flags=IGNORECASE)` with the
capitalization-preserving replacement function of replace_abbreviations:
the expansion is capitalized when the matched word started uppercase.
Fuel-based left-to-right scan; matches are not rescanned. -/
def wordSubAux (w rep : Str) : Nat → Option Char → Str → Str
  | _, _, [] => []
  | 0, _, s => s
  | fuel + 1, prev, c :: rest =>
      let s := c :: rest
      if !w.isEmpty && boundaryBefore prev && ciPrefixEq w s &&
          boundaryAfter (s.drop w.length) then
        let matched := s.take w.length
        (if (matched.headD ' ').isUpper then pyCapitalize rep else rep) ++
          wordSubAux w rep fuel matched.getLast? (s.drop w.length)
      else
        c :: wordSubAux w rep fuel (some c) rest

/-- Whole-word case-insensitive substitution, as used for each abbreviation. -/
def wordSub (w rep t : Str) : Str := wordSubAux w rep t.length none t

/-- Does the rstripped text already end in sentence punctuation? -/
def endsWithPunct (s : Str) : Bool :=
  match s.getLast? with
  | some c => c == '.' || c == '?' || c == '!'
  | none => false

/-- TextProcessor.replace_abbreviations.  `hasBegin`/`hasEnd` model the
`type` list containing "begin"/"end".  If `end` is requested and the text
lacks terminal punctuation, a period is appended to the rstripped text; if
`begin` is requested the first character is uppercased; then every
abbreviation is expanded in mapping order. -/
def replace_abbreviations (t : Str) (hasBegin hasEnd : Bool) : Str :=
  if t.isEmpty then t
  else
    let t := if hasEnd && !endsWithPunct (pyRStrip t) then pyRStrip t ++ s2l "." else t
    let t := if !t.isEmpty && hasBegin then capitalize_first_letter t else t
    ABBREVIATIONS.foldl (fun acc p => wordSub p.1 p.2 acc) t

/-- TextProcessor.ensure_punctuation. -/
def ensure_punctuation (t : Str) : Str :=
  if !t.isEmpty && !endsWithPunct (pyRStrip t) then pyRStrip t ++ s2l "." else t

/-! ## Data model: runs, paragraphs, document nodes -/

/-- A docx run: a styled text fragment. -/
structure Run where
  text : Str
  bold : Bool
  italic : Bool
deriving DecidableEq, Repr

/-- A docx paragraph: an ordered sequence of runs. -/
structure Para where
  runs : List Run
deriving DecidableEq, Repr

/-- python-docx Paragraph.text: concatenation of the run texts. -/
def Para.text (p : Para) : Str :=
  p.runs.foldr (fun r acc => r.text ++ acc) []

/-- Helper: a plain one-run paragraph. -/
def mkPara (s : String) : Para := ⟨[⟨s2l s, false, false⟩]⟩

/-! ## DocumentParser (src/utils.py) -/

/-- DocumentParser.is_section_header: does the text match `^\d+\)` ?
(Char.isDigit is the ASCII reading of the regex `\d`.) -/
def is_section_header (t : Str) : Bool :=
  let ds := t.takeWhile Char.isDigit
  !ds.isEmpty && (t.drop ds.length).headD ' ' == ')'

/-- DocumentParser.is_subsection_header: does the text match `^[a-zA-Z]\)` ? -/
def is_subsection_header (t : Str) : Bool :=
  match t with
  | a :: b :: _ => a.isAlpha && b == ')'
  | _ => false

/-- DocumentParser.extract_section_title: for a header, take what follows the
first `)` (text.split(")", 1)[1].strip()); otherwise the text unchanged.
The `none` branch of the split is unreachable under the header guard, which
guarantees a `)` occurs. -/
def extract_section_title (t : Str) : Str :=
  if is_section_header t || is_subsection_header t then
    match splitOnce (s2l ")") t with
    | some pr => pyStrip pr.2
    | none => t
  else t

/-- DocumentParser.extract_sections_list, single pass over the paragraphs.
`cur` is the Python local variable `section_title`, which is unbound
(`none`) until the first section header has been seen; reading it while
unbound raises UnboundLocalError, modelled as `none`.  The Python loop
appends to two growing lists; this recursion builds the same two lists. -/
def extract_sections_list_aux : List Para → Option Str → Option (List Str × List Str)
  | [], _ => some ([], [])
  | p :: rest, cur =>
      let t := pyStrip p.text
      if is_section_header t then
        let s := extract_section_title t
        match extract_sections_list_aux rest (some s) with
        | some (ss, subs) => some (s :: ss, subs)
        | none => none
      else if is_subsection_header t then
        match cur with
        | none => none
        | some s =>
            let sub := extract_section_title t
            match extract_sections_list_aux rest cur with
            | some (ss, subs) => some (ss, s :: sub :: subs)
            | none => none
      else
        extract_sections_list_aux rest cur

/-- DocumentParser.extract_sections_list. -/
def extract_sections_list (paragraphs : List Para) : Option (List Str × List Str) :=
  extract_sections_list_aux paragraphs none

/-- Roman-numeral character class `[IVXLCDM]` of the title regex. -/
def isRomanChar (c : Char) : Bool :=
  c == 'I' || c == 'V' || c == 'X' || c == 'L' || c == 'C' || c == 'D' || c == 'M'

/-- The parsed components of a document title. -/
structure TitleParts where
  numero : Str
  anno : Str
  annee : Str
  mois : Str
  jour : Str
deriving DecidableEq, Repr

/-- The deterministic tail of the title regex after the anno group:
`" - (\d{4})-(\d{2})-(\d{2})"`, with arbitrary trailing text allowed
(re.match does not anchor the end). -/
def titleTailMatch (s : Str) : Option (Str × Str × Str) :=
  if (s2l " - ").isPrefixOf s then
    let s := s.drop 3
    let a := s.take 4
    if decide (a.length = 4) && a.all Char.isDigit then
      let s := s.drop 4
      if (s.headD ' ') == '-' then
        let s := s.drop 1
        let b := s.take 2
        if decide (b.length = 2) && b.all Char.isDigit then
          let s := s.drop 2
          if (s.headD ' ') == '-' then
            let s := s.drop 1
            let c := s.take 2
            if decide (c.length = 2) && c.all Char.isDigit then some (a, b, c)
            else none
          else none
        else none
      else none
    else none
  else none

/-- Backtracking for the `[IVXLCDM]+` alternative: try match lengths from the
maximal roman run downwards, as the regex engine does. -/
def tryRomanLen (s : Str) : Nat → Option (Str × Str × Str × Str)
  | 0 => none
  | len + 1 =>
      match titleTailMatch (s.drop (len + 1)) with
      | some (a, b, c) => some (s.take (len + 1), a, b, c)
      | none => tryRomanLen s len

/-- DocumentParser.parse_title: re.match of
`PV RC (\d+) - Anno (LIX|[IVXLCDM]+) - (\d{4})-(\d{2})-(\d{2})`,
`none` modelling the ValueError raised on a non-matching title.  The
alternation tries the literal `LIX` first and falls back to the greedy
character class with backtracking, exactly as the regex engine does. -/
def parse_title (t : Str) : Option TitleParts :=
  if (s2l "PV RC ").isPrefixOf t then
    let s := t.drop 6
    let num := s.takeWhile Char.isDigit
    if num.isEmpty then none
    else
      let s := s.drop num.length
      if (s2l " - Anno ").isPrefixOf s then
        let s := s.drop 8
        match (if (s2l "LIX").isPrefixOf s then titleTailMatch (s.drop 3) else none) with
        | some (a, b, c) => some ⟨num, s2l "LIX", a, b, c⟩
        | none =>
            match tryRomanLen s (s.takeWhile isRomanChar).length with
            | some (anno, a, b, c) => some ⟨num, anno, a, b, c⟩
            | none => none
      else none
  else none

/-- DocumentParser.calculate_academic_year. -/
def calculate_academic_year (year month : Str) : Str :=
  let yi := strToNat year
  let mi := strToNat month
  if mi > 6 then year ++ s2l " - " ++ natToStr (yi + 1)
  else natToStr (yi - 1) ++ s2l " - " ++ year

/-! ## TableProcessor (src/utils.py) -/

/-- A docx table cell: its list of paragraphs. -/
abbrev Cell := List Para

/-- A docx table: rows of cells. -/
abbrev Table := List (List Cell)

/-- TableProcessor._format_paragraph: escape and style-wrap each run,
space-joined, then strip. -/
def table_format_paragraph (p : Para) : Str :=
  pyStrip <| p.runs.foldl (fun acc run =>
    let rt := escape (pyStrip run.text)
    let rt := if run.bold then s2l "\\textbf\x7b" ++ rt ++ s2l "\x7d" else rt
    let rt := if run.italic then s2l "\\textit\x7b" ++ rt ++ s2l "\x7d" else rt
    if !rt.isEmpty then acc ++ rt ++ s2l " " else acc) []

/-- TableProcessor.extract_table_data: per cell, the space-join of its
non-empty formatted paragraphs (empty when the cell has no paragraphs). -/
def extract_table_data (t : Table) : List (List Str) :=
  t.map (fun row => row.map (fun cell =>
    if !cell.isEmpty then
      pyJoin (s2l " ") ((cell.map table_format_paragraph).filter (fun s => !s.isEmpty))
    else []))

/-- TableProcessor.remove_duplicate_columns: collect the later column indices
that are cell-for-cell equal to some earlier column in every row, then filter
them out of every row.  `row.getD` agrees with Python's `row[col]` on the
rectangular tables the claims quantify over (Python raises IndexError off
that domain). -/
def remove_duplicate_columns (td : List (List Str)) : List (List Str) :=
  match td with
  | [] => td
  | r0 :: _ =>
      if r0.length ≤ 1 then td
      else
        let numCols := r0.length
        let columns_to_remove : List Nat :=
          (List.range numCols).filter (fun c2 =>
            (List.range c2).any (fun c1 =>
              td.all (fun row => row.getD c1 [] == row.getD c2 [])))
        td.map (fun row =>
          (row.enum.filter (fun pr => !columns_to_remove.contains pr.1)).map Prod.snd)

/-! ## Content elements and the document walker (src/converter.py) -/

/-- The typed content elements appended to `data['elements']` by
DocxToLatexConverter._process_element (tagged by the `type` key). -/
inductive Elem where
  | title (text : Str)
  | table (data : List (List Str))
  | image (path : Str) (width_cm height_cm : Option ℚ)
  | present_section (names : List Str)
  | start_text (text : Str)
  | sec (title : Str) (para : Para)
  | subsec (title : Str) (para : Para)
  | par (para : Para)
deriving DecidableEq, Repr

/-- A body node of the document: a table marker or a paragraph.  A paragraph
node carries the paragraph itself plus what the XML scrape of
_process_element extracts from it: the `r:embed` relationship ids and the
parallel `cx`/`cy` (EMU) lists found by the regexes. -/
inductive Node where
  | tbl
  | paragraph (p : Para) (rids : List Str) (cxs cys : List Nat)
deriving DecidableEq, Repr

/-- DocxToLatexConverter._emu_to_cm: (float(emu) / 914400.0) * 2.54, exact
over the rationals (both constants and the division at the claims' inputs
are exact in IEEE doubles as well). -/
def emu_to_cm (emu : ℚ) : ℚ := emu / 914400 * 2.54

/-- Lookup in the relationship-id → saved-path image map. -/
def lookupMap (m : List (Str × Str)) (k : Str) : Option Str :=
  (m.find? (fun pr => pr.1 == k)).map Prod.snd

/-- The image elements emitted for one paragraph node: for each embedded
relationship id found in the map, an `Image` element; its dimensions are
recorded (converted EMU→cm) only when both `cx` and `cy` are available and
non-zero (`if cx and cy:` — Python truthiness). -/
def images_for (imap : List (Str × Str)) (rids : List Str) (cxs cys : List Nat) :
    List Elem :=
  rids.enum.filterMap (fun pr =>
    match lookupMap imap pr.2 with
    | none => none
    | some path =>
        match cxs.get? pr.1, cys.get? pr.1 with
        | some cx, some cy =>
            if cx ≠ 0 ∧ cy ≠ 0 then
              some (Elem.image path (some (emu_to_cm cx)) (some (emu_to_cm cy)))
            else some (Elem.image path none none)
        | _, _ => some (Elem.image path none none))

/-- The walker's traversal state: `data['elements']`, `data['first_text']`,
`in_present_section`, `present_names_buffer`, `data['present_names']`,
`table_index` and the queue `paragraphs_to_correct`. -/
structure WalkSt where
  elements : List Elem
  first_text : Option Str
  in_present : Bool
  buffer : List Str
  present_names : List Str
  table_index : Nat
  to_correct : List Para
deriving DecidableEq, Repr

/-- The initial state of one traversal. -/
def initWalkSt : WalkSt := ⟨[], none, false, [], [], 0, []⟩

/-- DocxToLatexConverter._process_element: one step of the walker.
Mirrors the source's order: table branch; image scrape; first-text (Title)
branch with early return; `Présents` marker; attendee-block accumulation
and flush; classification of a normal paragraph. -/
def process_element (tables : List Table) (imap : List (Str × Str))
    (st : WalkSt) (n : Node) : WalkSt :=
  match n with
  | .tbl =>
      if st.table_index < tables.length then
        let td := remove_duplicate_columns (extract_table_data (tables.getD st.table_index []))
        { st with elements := st.elements ++ [Elem.table td],
                  table_index := st.table_index + 1 }
      else st
  | .paragraph p rids cxs cys =>
      let st1 := { st with elements := st.elements ++ images_for imap rids cxs cys }
      let text := pyStrip p.text
      if st1.first_text.isNone ∧ text ≠ [] then
        { st1 with elements := st1.elements ++ [Elem.title text], first_text := some text }
      else if (s2l "Présents").isPrefixOf text then
        { st1 with in_present := true }
      else if st1.in_present then
        if text = [] ∨ (s2l "__").isPrefixOf text then
          let st2 := { st1 with in_present := false,
                                present_names := st1.buffer,
                                elements := st1.elements ++ [Elem.present_section st1.buffer] }
          let st3 := if (s2l "__").isPrefixOf text then
                       { st2 with elements := st2.elements ++ [Elem.start_text text] }
                     else st2
          { st3 with buffer := [] }
        else { st1 with buffer := st1.buffer ++ [text] }
      else if text ≠ [] then
        let st2 := { st1 with to_correct := st1.to_correct ++ [p] }
        if is_section_header text then
          { st2 with elements := st2.elements ++ [Elem.sec (extract_section_title text) p] }
        else if is_subsection_header text then
          { st2 with elements := st2.elements ++ [Elem.subsec (extract_section_title text) p] }
        else
          { st2 with elements := st2.elements ++ [Elem.par p] }
      else st1

/-- The element-stream loop of DocxToLatexConverter._process_document. -/
def process_document (nodes : List Node) (tables : List Table)
    (imap : List (Str × Str)) : WalkSt :=
  nodes.foldl (process_element tables imap) initWalkSt

/-! ## LaTeXGenerator (src/latex_generator.py) -/

/-- LaTeXGenerator.generate_document_header. -/
def generate_document_header : Str :=
  pyJoin (s2l "\n")
    ([s2l "\\documentclass\x7barticle\x7d"] ++ LATEX_PACKAGES ++ LATEX_SETTINGS ++
      [s2l "\\begin\x7bdocument\x7d\n"])

/-- LaTeXGenerator.generate_document_footer. -/
def generate_document_footer : Str := s2l "\\end\x7bdocument\x7d\n"

/-- LaTeXGenerator.generate_title_header: the structured fancy header when
the title parses, otherwise the plain escaped fallback (the ValueError
branch). -/
def generate_title_header (title : Str) : Str :=
  match parse_title title with
  | some c =>
      s2l "\\fancyhead[L]\x7bCBB - Anno " ++ c.anno ++ s2l " \\hfill " ++
        calculate_academic_year c.annee c.mois ++ s2l " \n\n\x7d " ++
        s2l "\\fancyhead[R]\x7bRéunion Comité n° " ++ c.numero ++ s2l " \\hfill " ++
        c.jour ++ s2l "/" ++ c.mois ++ s2l "/" ++ c.annee ++ s2l "\x7d"
  | none => s2l "\\fancyhead[C]\x7b" ++ escape title ++ s2l "\x7d"

/-- LaTeXGenerator.generate_title_section. -/
def generate_title_section (title : Str) : Str :=
  s2l "\\begin\x7bcenter\x7d\n\\LARGE \\textbf\x7b" ++ escape title ++
    s2l "\x7d\\\\ \n\\end\x7bcenter\x7d\n\n"

/-- The `while subsections and subsections[0].startswith(section):` loop of
generate_toc: destructively consumes pairs from the subsection list,
producing one indented line per consumed pair.  When the list holds a lone
matching entry the second `pop(0)` raises IndexError, modelled as `none`. -/
def toc_consume (sect : Str) : List Str → Option (List Str × List Str)
  | [] => some ([], [])
  | [a] => if sect.isPrefixOf a then none else some ([], [a])
  | a :: b :: rest =>
      if sect.isPrefixOf a then
        match toc_consume sect rest with
        | some (ls, rem) =>
            some ((s2l "\\hspace*\x7b0.8cm\x7d - \\textbf\x7b" ++ escape b ++
                    s2l "\x7d\\\\ ") :: ls, rem)
        | none => none
      else some ([], a :: b :: rest)

/-- The section loop of generate_toc: one bold line per section, each
followed by the lines of its consumed subsections. -/
def toc_section_lines : List Str → List Str → Option (List Str × List Str)
  | [], subs => some ([], subs)
  | s :: rest, subs =>
      let line := s2l "\\textbf\x7b- " ++ capitalize_first_letter (escape s) ++
        s2l "\x7d\\\\ "
      match toc_consume s subs with
      | none => none
      | some (subLines, subs1) =>
          match toc_section_lines rest subs1 with
          | none => none
          | some (more, subs2) => some (line :: (subLines ++ more), subs2)

/-- LaTeXGenerator.generate_toc.  Returns the markup together with what
remains of the (destructively consumed) subsection list. -/
def generate_toc (sections subs : List Str) : Option (Str × List Str) :=
  if sections.isEmpty then some ([], subs)
  else
    match toc_section_lines sections subs with
    | none => none
    | some (ls, subs1) =>
        some (pyJoin (s2l "\n")
          ([s2l "\\begin\x7bcenter\x7d",
            s2l "\\section*\x7b\\hspace\x7b-1.5cm\x7dOrdre du jour\x7d",
            s2l "\\hspace*\x7b-0.5cm\x7d\\begin\x7bvarwidth\x7d\x7b\\textwidth\x7d"] ++
            ls ++
            [s2l "\\end\x7bvarwidth\x7d", s2l "\\end\x7bcenter\x7d\n\n"]), subs1)

/-- LaTeXGenerator.generate_present_section.  `names.index(name)` returns the
index of the FIRST occurrence of `name`, which the source compares against
`len(names) - 1` to decide the separator. -/
def generate_present_section (names : List Str) : Str :=
  if names.isEmpty then []
  else
    let nameLines := names.filterMap (fun name =>
      let e := escape (pyStrip name)
      if e.isEmpty then none
      else if names.findIdx (fun x => x == name) < names.length - 1 then
        some (s2l " " ++ e ++ s2l "\\\\ ")
      else some (s2l " " ++ e ++ s2l " "))
    pyJoin (s2l "\n")
      ([s2l "\\section*\x7bCamarades présents :\x7d", [],
        s2l "\\begin\x7bmulticols\x7d\x7b2\x7d"] ++ nameLines ++
        [s2l "\\end\x7bmulticols\x7d\n"])

/-- LaTeXGenerator.generate_section: heading markup, title escaped then
first-letter capitalized. -/
def generate_section (title : Str) : Str :=
  s2l "\\section\x7b" ++ capitalize_first_letter (escape title) ++ s2l "\x7d\n\n"

/-- LaTeXGenerator.generate_subsection: heading markup, title escaped then
first-letter capitalized. -/
def generate_subsection (title : Str) : Str :=
  s2l "\\subsection*\x7b" ++ capitalize_first_letter (escape title) ++ s2l "\x7d\n\n"

/-- LaTeXGenerator.generate_table. -/
def generate_table (td : List (List Str)) : Str :=
  match td with
  | [] => []
  | r0 :: _ =>
      if r0.isEmpty then []
      else
        let colSpec := s2l "\\begin\x7btabular\x7d\x7b|" ++
          pyJoin (s2l " | ") (List.replicate r0.length (s2l "c")) ++ s2l " |\x7d"
        let rowLines := td.foldr
          (fun row acc => (pyJoin (s2l " & ") row ++ s2l " \\\\") :: s2l "\\hline" :: acc) []
        pyJoin (s2l "\n")
          ([s2l "\\begin\x7btable\x7d[h]", s2l "\\centering", colSpec, s2l "\\hline"] ++
            rowLines ++ [s2l "\\end\x7btabular\x7d", s2l "\\end\x7btable\x7d\n"])

/-- LaTeXGenerator.generate_logo_section. -/
def generate_logo_section : Str :=
  s2l "\\vspace\x7b\\fill\x7d\n\\begin\x7bcenter\x7d\n" ++
    s2l "\\includegraphics[height=\\dimexpr\\textheight-\\pagetotal\\relax]\x7b" ++
    DEFAULT_LOGO_PATH ++ s2l "\x7d\n" ++ s2l "\\end\x7bcenter\x7d\n\\newpage\n"

/-! ## The markup renderer (DocxToLatexConverter._write_latex_file) -/

/-- Floor of a rational, via floored integer division (den is positive). -/
def floorQ (q : ℚ) : ℤ := Int.fdiv q.num q.den

/-- Round to the nearest integer, ties to even — the rounding of Python's
float formatting, applied here to the exact rational value. -/
def round_half_even (q : ℚ) : ℤ :=
  let f := floorQ q
  let r := q - (f : ℚ)
  if r < 1 / 2 then f
  else if 1 / 2 < r then f + 1
  else if f % 2 = 0 then f else f + 1

/-- Python f"\x7bx:.2f\x7d" on the exact rational value. -/
def format2f (q : ℚ) : Str :=
  let n := round_half_even (q * 100)
  let sign : Str := if n < 0 then s2l "-" else []
  let m := n.natAbs
  sign ++ natToStr (m / 100) ++ s2l "." ++
    (if m % 100 < 10 then s2l "0" else []) ++ natToStr (m % 100)

/-- The width option of the image branch: emitted only when the value is
present (`width_cm and ...` — None and 0.0 are falsy) and strictly
positive. -/
def widthOpt (w : Option ℚ) : List Str :=
  match w with
  | some q => if q ≠ 0 ∧ 0 < q then [s2l "width=" ++ format2f q ++ s2l "cm"] else []
  | none => []

/-- The height option of the image branch, same guard as the width. -/
def heightOpt (h : Option ℚ) : List Str :=
  match h with
  | some q => if q ≠ 0 ∧ 0 < q then [s2l "height=" ++ format2f q ++ s2l "cm"] else []
  | none => []

/-- Path(p).name: the last `/`-separated component. -/
def basename (p : Str) : Str := (pySplit (s2l "/") p).getLastD p

/-- The figure block written for an `image` element. -/
def image_chunk (path : Str) (w h : Option ℚ) : Str :=
  if !path.isEmpty then
    let rel := s2l "images/" ++ basename path
    let opts := widthOpt w ++ heightOpt h
    let optStr := if !opts.isEmpty then s2l "[" ++ pyJoin (s2l ",") opts ++ s2l "]" else []
    s2l "\\begin\x7bfigure\x7d[h]\n\\centering\n" ++ s2l "\\includegraphics" ++
      optStr ++ s2l "\x7b" ++ rel ++ s2l "\x7d\n" ++ s2l "\\end\x7bfigure\x7d\n\n"
  else []

/-- The cleaning applied to an attendee list by the renderer's
`present_section` branch: strip each name, drop empties, then strip a
single leading `#` (and surrounding whitespace). -/
def clean_present_names (names : List Str) : List Str :=
  let stripped := (names.map pyStrip).filter (fun n => !n.isEmpty)
  stripped.map (fun name =>
    if (s2l "#").isPrefixOf name then pyStrip (name.drop 1) else name)

/-- One eighth of _format_paragraph_with_runs: the body of the run loop of
the colon branch, threading (accumulated text, current bold label). -/
def fpr_colon_step (brut : Str) (n : Nat) (acc : Str × Str) (ir : Nat × Run) :
    Str × Str :=
  let latex := acc.1
  let bold_part := acc.2
  let i := ir.1
  let run := ir.2
  let tyBegin := i == 0
  let tyEnd := i == n - 1
  let remaining := pyStrip run.text
  let remaining :=
    if listContains brut remaining then
      pyStrip (pyReplaceOnce (s2l ":") [] (pyReplace brut [] remaining))
    else remaining
  let remaining :=
    if (s2l ":").isPrefixOf remaining then pyStrip (remaining.drop 1) else remaining
  let remaining := escape remaining
  let remaining := replace_abbreviations remaining tyBegin tyEnd
  let remaining := if run.bold then s2l "\\textbf\x7b" ++ remaining ++ s2l "\x7d" else remaining
  let pr :=
    if run.italic then
      (s2l "\\textit\x7b" ++ remaining ++ s2l "\x7d",
       s2l "\\textit\x7b" ++ bold_part ++ s2l "\x7d")
    else (remaining, bold_part)
  (if !pr.1.isEmpty then latex ++ pr.1 else latex, pr.2)

/-- DocxToLatexConverter._format_paragraph_with_runs. -/
def format_paragraph_with_runs (p : Para) : Str :=
  let text := pyStrip p.text
  if listContains (s2l ":") text then
    match splitOnce (s2l ":") p.text with
    | some pr =>
        let brut := pyStrip pr.1
        let bold0 := s2l "\\textbf\x7b" ++ escape brut ++ s2l "\x7d"
        let res := p.runs.enum.foldl (fpr_colon_step brut p.runs.length) ([], bold0)
        let latex := pyReplace (s2l "\\textit\x7b\x7d") [] res.1
        res.2 ++ s2l " : " ++ pyStrip latex ++ s2l "\n\n"
    | none => []
  else
    let latex := p.runs.foldl (fun acc run =>
      let rt := escape (pyStrip run.text)
      let rt := replace_abbreviations rt true true
      let rt := if run.bold then s2l "\\textbf\x7b" ++ rt ++ s2l "\x7d" else rt
      let rt := if run.italic then s2l "\\textit\x7b" ++ rt ++ s2l "\x7d" else rt
      if !rt.isEmpty then acc ++ rt ++ s2l " " else acc) []
    if !(pyStrip latex).isEmpty then pyStrip latex ++ s2l "\n\n" else []

/-- The renderer's two single-use latches and the (destructively consumed)
subsection list. -/
structure RState where
  toc_inserted : Bool
  present_inserted : Bool
  subs : List Str
deriving DecidableEq, Repr

/-- The TOC/logo insertion of _write_latex_file: runs when the element is a
`start_text` marker or the `present_inserted` latch is up; inserts the
table of contents and the logo block when not yet inserted and the section
outline is non-empty; always clears `present_inserted`. -/
def toc_branch (sections : List Str) (st : RState) : Option (Str × RState) :=
  if !st.toc_inserted ∧ sections ≠ [] then
    match generate_toc sections st.subs with
    | none => none
    | some (tocStr, subs1) =>
        some (tocStr ++ generate_logo_section, ⟨true, false, subs1⟩)
  else some ([], ⟨st.toc_inserted, false, st.subs⟩)

/-- One iteration of the element loop of _write_latex_file, following the
source's `elif` chain: `title`, `table`, `image` and `present_section`
elements are always rendered as themselves; the fifth branch catches a
`start_text` marker or ANY later element kind while `present_inserted` is
set (such an element is consumed by the TOC/logo insertion and emits no
markup of its own); otherwise `section`/`subsection`/`paragraph` render
their markup. -/
def renderStep (sections : List Str) (st : RState) (e : Elem) :
    Option (Str × RState) :=
  match e with
  | .title t => some (generate_title_section t, st)
  | .table d => some (generate_table d, st)
  | .image path w h => some (image_chunk path w h, st)
  | .present_section names =>
      some (generate_present_section (clean_present_names names),
        ⟨st.toc_inserted, true, st.subs⟩)
  | .start_text _ => toc_branch sections st
  | .sec t _ =>
      if st.present_inserted then toc_branch sections st
      else some (generate_section t, st)
  | .subsec t _ =>
      if st.present_inserted then toc_branch sections st
      else some (generate_subsection t, st)
  | .par p =>
      if st.present_inserted then toc_branch sections st
      else some (format_paragraph_with_runs p, st)

/-- The element loop of _write_latex_file. -/
def renderElems (sections : List Str) (st : RState) : List Elem → Option (Str × RState)
  | [] => some ([], st)
  | e :: rest =>
      match renderStep sections st e with
      | none => none
      | some (c, st1) =>
          match renderElems sections st1 rest with
          | none => none
          | some (c2, st2) => some (c ++ c2, st2)

/-- DocxToLatexConverter._write_latex_file over processed document data
(element sequence, section outline, subsection outline, title): the bytes
written to the file, together with what remains of the destructively
consumed subsection list (`data['subsections_list']` after the call). -/
def writeLatexFile (els : List Elem) (sections subs : List Str) (title : Str) :
    Option (Str × List Str) :=
  match renderElems sections ⟨false, false, subs⟩ els with
  | none => none
  | some (body, st) =>
      some (generate_document_header ++ generate_title_header title ++ s2l "\n\n" ++
        body ++ generate_document_footer, st.subs)

/-! ## TextCorrector (src/text_corrector.py) -/

/-- Config.CORRECTION_WHITELIST (built-in defaults), joined as in
get_correction_prompt. -/
def CORRECTION_WHITELIST : List Str :=
  [ s2l "Cm !", s2l "Cs !", s2l "CM !", s2l "CS !", s2l "F.", s2l "le X",
    s2l "CBB", s2l "io vivat", s2l "PGCA", s2l "CBBQ", s2l "CMF", s2l "XX",
    s2l "XXX", s2l "XXXX", s2l "FM", s2l "tapette", s2l "réunion ex",
    s2l "band", s2l "peye", s2l "Sam’saoule" ]

/-- The built-in default correction prompt template, with `\x7btext\x7d` and
`\x7bwhitelist\x7d` placeholders. -/
def CORRECTION_PROMPT_TEMPLATE : Str :=
  s2l "Corrige le texte suivant en français :\n" ++
  s2l "- Corrige les fautes d\x27orthographe, de grammaire, de ponctuation, de conjugaison et la concordance des temps.\n" ++
  s2l "- Améliore la syntaxe et la clarté.\n" ++
  s2l "- Ne modifie pas les noms propres, les anglicismes ni le latin (ex: io vivat).\n" ++
  s2l "- Ne modifie pas les mots suivants : \x7bwhitelist\x7d.\n\n" ++
  s2l "Ta réponse doit UNIQUEMENT contenir le texte corrigé, sans explications ni commentaires.\n\n" ++
  s2l "Texte à corriger :\n\n\x7btext\x7d\n"

/-- Config.get_correction_prompt: `template.format(text=..., whitelist=...)`,
modelled as placeholder substitution. -/
def get_correction_prompt (text : Str) : Str :=
  let wl := pyJoin (s2l ", ") CORRECTION_WHITELIST
  pyReplace (s2l "\x7btext\x7d") text
    (pyReplace (s2l "\x7bwhitelist\x7d") wl CORRECTION_PROMPT_TEMPLATE)

/-- TextCorrector._call_correction_api with an available client.  `api` is
the external chat call, which either answers or raises.  On success the
stripped response is returned; any exception is caught, logged, and the
ORIGINAL input text is returned — the call never re-raises. -/
def call_correction_api (api : Str → Except Unit Str) (text : Str) : Option Str :=
  match api (get_correction_prompt text) with
  | .ok r => some (pyStrip r)
  | .error _ => some text

/-- TextCorrector._distribute_text_across_runs, main loop: the i-th run takes
`int(len(new_text) * len(run.text)/total)` characters of what remains
(exact rational model of the float product, floored as int() does), the
last run takes everything left, and once the remainder is exhausted the
remaining runs are emptied. -/
def distribute_go (newLen total : Nat) : List Run → Str → List Run
  | [], _ => []
  | [r], remaining =>
      if remaining.isEmpty then [{ r with text := [] }] else [{ r with text := remaining }]
  | r :: rs, remaining =>
      if remaining.isEmpty then
        { r with text := [] } :: distribute_go newLen total rs []
      else
        let k := newLen * r.text.length / total
        { r with text := remaining.take k } :: distribute_go newLen total rs (remaining.drop k)

/-- TextCorrector._update_paragraph_text: one run is replaced directly, no
run means a fresh default run, several runs share the text proportionally
(all runs cleared but the first when their total length is zero). -/
def update_paragraph_text (p : Para) (newText : Str) : Para :=
  match p.runs with
  | [r] => ⟨[{ r with text := newText }]⟩
  | [] => ⟨[⟨newText, false, false⟩]⟩
  | r :: rs =>
      let total := (p.runs.map (fun run => run.text.length)).sum
      if total = 0 then
        ⟨{ r with text := newText } :: rs.map (fun run => { run with text := [] })⟩
      else ⟨distribute_go newText.length total (r :: rs) newText⟩

/-- The write-back loop of _correct_batch: each corrected chunk updates the
paragraph at the same position (chunks beyond the batch are ignored,
paragraphs beyond the chunks stay untouched). -/
def apply_corrections : List Para → List Str → List Para
  | [], _ => []
  | p :: ps, [] => p :: apply_corrections ps []
  | p :: ps, c :: cs => update_paragraph_text p (pyStrip c) :: apply_corrections ps cs

/-- TextCorrector._correct_batch: strip and join the batch texts with the
separator, call the correction API, and — unless the result is falsy —
split the answer on the separator and write the chunks back.  Returns the
post-call state of the batch's paragraphs. -/
def correct_batch (api : Str → Except Unit Str) (batch : List Para) : List Para :=
  if batch.isEmpty then []
  else
    let texts := batch.map (fun p => pyStrip p.text)
    let joined := pyJoin BATCH_SEPARATOR texts
    match call_correction_api api joined with
    | none => batch
    | some corrected =>
        if corrected.isEmpty then batch
        else apply_corrections batch (pySplit BATCH_SEPARATOR corrected)

/-! ## Spec-side definitions used to state the claims -/

/-- Modelled from the spec wording of the SectionOutline for the C3
refinement: the (owning section title, subsection's own title) pair for
every paragraph classified as a subsection header, the owner being the
most recently seen section header's extracted title. -/
def outline_pairs : List Para → Option Str → List (Str × Str)
  | [], _ => []
  | p :: rest, cur =>
      let t := pyStrip p.text
      if is_section_header t then outline_pairs rest (some (extract_section_title t))
      else if is_subsection_header t then
        match cur with
        | some s => (s, extract_section_title t) :: outline_pairs rest cur
        | none => []
      else outline_pairs rest cur

/-- Does some subsection header occur before any section header? -/
def subsection_before_section : List Para → Bool
  | [] => false
  | p :: rest =>
      let t := pyStrip p.text
      if is_section_header t then false
      else if is_subsection_header t then true
      else subsection_before_section rest

/-- Column j duplicates some earlier column: every row's j-th cell equals
the corresponding cell of some column i < j. -/
def DupCol (td : List (List Str)) (j : Nat) : Prop :=
  ∃ i, i < j ∧ ∀ row ∈ td, row.getD i [] = row.getD j []

/-- Boolean test for `DupCol`. -/
def dupColB (td : List (List Str)) (j : Nat) : Bool :=
  (List.range j).any (fun i => td.all (fun row => row.getD i [] == row.getD j []))

/-- The stripped text of the first paragraph node whose stripped text is
non-empty. -/
def firstNonemptyText : List Node → Option Str
  | [] => none
  | .tbl :: rest => firstNonemptyText rest
  | .paragraph p _ _ _ :: rest =>
      let t := pyStrip p.text
      if t.isEmpty then firstNonemptyText rest else some t

/-- The texts of the Title elements of an element sequence. -/
def titlesOf (es : List Elem) : List Str :=
  es.filterMap (fun e => match e with | .title t => some t | _ => none)

/-- The name lists of the AttendeeList elements of an element sequence. -/
def attendeeNames (es : List Elem) : List (List Str) :=
  es.filterMap (fun e => match e with | .present_section ns => some ns | _ => none)

/-! ## Theorems: C9, C10, C3 -/

/-- C9: unit conversion from native EMU to centimeters: 914400 EMU convert
to exactly 2.54 cm, 0 EMU converts to 0.0 cm, and a zero or non-positive
(or absent) dimension is never emitted as a width/height sizing option in
the rendered image markup — the option is emitted only when the value is
present and strictly positive. -/
theorem c9_unit_conversion :
    emu_to_cm 914400 = 2.54 ∧ emu_to_cm 0 = 0 ∧
    (∀ q : ℚ, q ≤ 0 → widthOpt (some q) = []) ∧ widthOpt none = [] ∧
    (∀ q : ℚ, q ≤ 0 → heightOpt (some q) = []) ∧ heightOpt none = [] := by
  refine ⟨by norm_num [emu_to_cm], by norm_num [emu_to_cm], ?_, rfl, ?_, rfl⟩
  · intro q hq
    simp only [widthOpt]
    rw [if_neg]
    rintro ⟨-, hpos⟩
    exact absurd hpos (not_lt.mpr hq)
  · intro q hq
    simp only [heightOpt]
    rw [if_neg]
    rintro ⟨-, hpos⟩
    exact absurd hpos (not_lt.mpr hq)

/-- Witness for C9 at concrete non-positive dimensions. -/
theorem c9_witness : widthOpt (some 0) = [] ∧ heightOpt (some (-1)) = [] :=
  ⟨c9_unit_conversion.2.2.1 0 le_rfl, c9_unit_conversion.2.2.2.2.1 (-1) (by norm_num)⟩

/-- On a state in which a section has already been seen, the outline scan
can no longer fail. -/
theorem esla_some_isSome (ps : List Para) :
    ∀ s, (extract_sections_list_aux ps (some s)).isSome := by
  induction ps with
  | nil => intro s; simp [extract_sections_list_aux]
  | cons p rest ih =>
      intro s
      simp only [extract_sections_list_aux]
      by_cases h1 : is_section_header (pyStrip p.text) = true
      · simp only [h1, if_true]
        have h2 := ih (extract_section_title (pyStrip p.text))
        cases he : extract_sections_list_aux rest
            (some (extract_section_title (pyStrip p.text))) with
        | none => rw [he] at h2; simp at h2
        | some pr => cases pr; simp [he]
      · simp only [h1, Bool.false_eq_true, if_false]
        by_cases h3 : is_subsection_header (pyStrip p.text) = true
        · simp only [h3, if_true]
          have h2 := ih s
          cases he : extract_sections_list_aux rest (some s) with
          | none => rw [he] at h2; simp at h2
          | some pr => cases pr; simp [he]
        · simp only [h3, Bool.false_eq_true, if_false]
          exact ih s

/-- With no section yet, a leading subsection header makes the scan fail. -/
theorem sbs_true_none (ps : List Para) (h : subsection_before_section ps = true) :
    extract_sections_list_aux ps none = none := by
  induction ps with
  | nil => simp [subsection_before_section] at h
  | cons p rest ih =>
      simp only [subsection_before_section] at h
      simp only [extract_sections_list_aux]
      by_cases h1 : is_section_header (pyStrip p.text) = true
      · simp [h1] at h
      · simp only [h1, Bool.false_eq_true, if_false] at h ⊢
        by_cases h3 : is_subsection_header (pyStrip p.text) = true
        · simp [h3]
        · simp only [h3, Bool.false_eq_true, if_false] at h ⊢
          exact ih h

/-- With no subsection before the first section, the scan succeeds. -/
theorem sbs_false_isSome (ps : List Para) (h : subsection_before_section ps = false) :
    (extract_sections_list_aux ps none).isSome := by
  induction ps with
  | nil => simp [extract_sections_list_aux]
  | cons p rest ih =>
      simp only [subsection_before_section] at h
      simp only [extract_sections_list_aux]
      by_cases h1 : is_section_header (pyStrip p.text) = true
      · simp only [h1, if_true]
        have h2 := esla_some_isSome rest (extract_section_title (pyStrip p.text))
        cases he : extract_sections_list_aux rest
            (some (extract_section_title (pyStrip p.text))) with
        | none => rw [he] at h2; simp at h2
        | some pr => cases pr; simp [he]
      · simp only [h1, Bool.false_eq_true, if_false] at h ⊢
        by_cases h3 : is_subsection_header (pyStrip p.text) = true
        · simp [h3] at h
        · simp only [h3, Bool.false_eq_true, if_false] at h ⊢
          exact ih h

/-- C10: extract_sections_list is total only under the precondition that
every subsection header is preceded by at least one section header: when
some paragraph classifies as a subsection header before any section header
has been seen, the scan raises UnboundLocalError (modelled `none`) instead
of returning an outline; otherwise it returns one. -/
theorem c10_outline_totality (ps : List Para) :
    (subsection_before_section ps = true → extract_sections_list ps = none) ∧
    (subsection_before_section ps = false → (extract_sections_list ps).isSome = true) :=
  ⟨fun h => sbs_true_none ps h, fun h => sbs_false_isSome ps h⟩

/-- Witness for C10: a lone subsection header raises; a section followed by
a subsection succeeds. -/
theorem c10_witness :
    extract_sections_list [mkPara "a) X"] = none ∧
    (extract_sections_list [mkPara "1) S", mkPara "a) X"]).isSome = true :=
  ⟨(c10_outline_totality [mkPara "a) X"]).1 (by decide),
   (c10_outline_totality [mkPara "1) S", mkPara "a) X"]).2 (by decide)⟩

/-- Flatten (owner, own title) pairs into the flat list the code builds. -/
def pairsFlat (l : List (Str × Str)) : List Str :=
  l.foldr (fun pr acc => pr.1 :: pr.2 :: acc) []

theorem pairsFlat_cons (a : Str × Str) (l : List (Str × Str)) :
    pairsFlat (a :: l) = a.1 :: a.2 :: pairsFlat l := rfl

/-- The outline scan's subsection list is exactly the flattened
(owning section title, subsection's own title) pairs. -/
theorem esla_pairs (ps : List Para) :
    ∀ (cur : Option Str) (secs subs : List Str),
      extract_sections_list_aux ps cur = some (secs, subs) →
      subs = pairsFlat (outline_pairs ps cur) := by
  induction ps with
  | nil =>
      intro cur secs subs h
      simp only [extract_sections_list_aux, Option.some.injEq, Prod.mk.injEq] at h
      exact h.2.symm
  | cons p rest ih =>
      intro cur secs subs h
      simp only [extract_sections_list_aux] at h
      simp only [outline_pairs]
      by_cases h1 : is_section_header (pyStrip p.text) = true
      · simp only [h1, if_true] at h ⊢
        cases he : extract_sections_list_aux rest
            (some (extract_section_title (pyStrip p.text))) with
        | none => rw [he] at h; simp at h
        | some pr =>
            obtain ⟨ss, subs1⟩ := pr
            rw [he] at h
            simp only [Option.some.injEq, Prod.mk.injEq] at h
            rw [← h.2]
            exact ih _ _ _ he
      · simp only [h1, Bool.false_eq_true, if_false] at h ⊢
        by_cases h3 : is_subsection_header (pyStrip p.text) = true
        · simp only [h3, if_true] at h ⊢
          cases cur with
          | none => simp at h
          | some s =>
              cases he : extract_sections_list_aux rest (some s) with
              | none => rw [he] at h; simp at h
              | some pr =>
                  obtain ⟨ss, subs1⟩ := pr
                  rw [he] at h
                  simp only [Option.some.injEq, Prod.mk.injEq] at h
                  rw [← h.2, pairsFlat_cons, ih (some s) ss subs1 he]
        · simp only [h3, Bool.false_eq_true, if_false] at h ⊢
          exact ih cur secs subs h

/-- C3: for every paragraph sequence on which the outline scan returns, the
second returned sequence holds, for each paragraph classified as a
subsection header, the owning section's title followed by that
subsection's OWN extracted title (not the section title reused for both
fields). -/
theorem c3_subsections_own_title (ps : List Para) (secs subs : List Str)
    (h : extract_sections_list ps = some (secs, subs)) :
    subs = pairsFlat (outline_pairs ps none) :=
  esla_pairs ps none secs subs h

/-- Witness for C3 at a concrete section/subsection sequence. -/
theorem c3_witness :
    extract_sections_list [mkPara "1) Sec", mkPara "a) Sub"] =
      some ([s2l "Sec"], [s2l "Sec", s2l "Sub"]) ∧
    [s2l "Sec", s2l "Sub"] =
      pairsFlat (outline_pairs [mkPara "1) Sec", mkPara "a) Sub"] none) :=
  ⟨by decide, c3_subsections_own_title [mkPara "1) Sec", mkPara "a) Sub"]
      [s2l "Sec"] [s2l "Sec", s2l "Sub"] (by decide)⟩

/-! ## Theorems: C8 -/

theorem dupColB_iff (td : List (List Str)) (j : Nat) :
    dupColB td j = true ↔ DupCol td j := by
  simp [dupColB, DupCol, List.any_eq_true, List.all_eq_true, List.mem_range]

instance (td : List (List Str)) (j : Nat) : Decidable (DupCol td j) :=
  decidable_of_iff (dupColB td j = true) (dupColB_iff td j)

theorem decide_dupCol (td : List (List Str)) (j : Nat) :
    decide (DupCol td j) = dupColB td j := by
  by_cases h : DupCol td j
  · simp [h, (dupColB_iff td j).mpr h]
  · have hb : dupColB td j = false := by
      cases hb : dupColB td j
      · rfl
      · exact absurd ((dupColB_iff td j).mp hb) h
    simp [h, hb]

theorem mem_enum_lt {α : Type} (l : List α) (pr : Nat × α) (h : pr ∈ l.enum) :
    pr.1 < l.length := by
  rw [List.enum_eq_zip_range] at h
  exact List.mem_range.mp (List.of_mem_zip h).1

theorem contains_filter_range (numCols j : Nat) (pred : Nat → Bool) (hj : j < numCols) :
    ((List.range numCols).filter pred).contains j = pred j := by
  cases hp : pred j
  · cases hc : ((List.range numCols).filter pred).contains j
    · rfl
    · exfalso
      have hm := List.mem_filter.mp (List.elem_iff.mp hc)
      rw [hp] at hm
      exact Bool.false_ne_true hm.2
  · exact List.elem_iff.mpr (List.mem_filter.mpr ⟨List.mem_range.mpr hj, hp⟩)

theorem filter_enum_le_one (td : List (List Str)) (row : List Str)
    (h : row.length ≤ 1) :
    (row.enum.filter (fun pr => !decide (DupCol td pr.1))).map Prod.snd = row := by
  cases row with
  | nil => rfl
  | cons x xs =>
      cases xs with
      | nil =>
          have hd : ¬ DupCol td 0 := by rintro ⟨i, hi, -⟩; omega
          simp [List.enum, hd]
      | cons y ys => simp at h

/-- C8: on a rectangular table, remove_duplicate_columns removes from every
row exactly the columns that are cell-for-cell equal to some earlier column
in every row (keeping the earlier column, preserving order). -/
theorem c8_remove_duplicate_columns (td : List (List Str)) (n : Nat)
    (hrect : ∀ r ∈ td, r.length = n) :
    remove_duplicate_columns td =
      td.map (fun row =>
        (row.enum.filter (fun pr => !decide (DupCol td pr.1))).map Prod.snd) := by
  cases td with
  | nil => rfl
  | cons r0 tl =>
      have hr0 : r0.length = n := hrect r0 (List.mem_cons_self r0 tl)
      by_cases hle : r0.length ≤ 1
      · simp only [remove_duplicate_columns]
        rw [if_pos hle]
        have hmap : (r0 :: tl).map (fun row =>
            (row.enum.filter (fun pr => !decide (DupCol (r0 :: tl) pr.1))).map Prod.snd) =
            (r0 :: tl).map id := by
          apply List.map_congr_left
          intro row hrow
          have hlen : row.length ≤ 1 := by
            rw [hrect row hrow, ← hr0]; exact hle
          simpa using filter_enum_le_one (r0 :: tl) row hlen
        rw [hmap, List.map_id]
      · simp only [remove_duplicate_columns]
        rw [if_neg hle]
        apply List.map_congr_left
        intro row hrow
        apply congrArg (List.map Prod.snd)
        apply List.filter_congr
        intro pr hpr
        have hlt : pr.1 < r0.length := by
          have := mem_enum_lt row pr hpr
          rw [hrect row hrow, ← hr0] at this
          exact this
        rw [contains_filter_range r0.length pr.1 _ hlt, decide_dupCol]
        rfl

/-- Witness for C8 at the spec's concrete table. -/
theorem c8_witness :
    remove_duplicate_columns [[s2l "a", s2l "a", s2l "b"], [s2l "c", s2l "c", s2l "d"]] =
      [[s2l "a", s2l "b"], [s2l "c", s2l "d"]] := by
  have h := c8_remove_duplicate_columns
    [[s2l "a", s2l "a", s2l "b"], [s2l "c", s2l "c", s2l "d"]] 3 (by decide)
  rw [h]
  decide

/-! ## Theorems: C6 -/

theorem mem_pyReplaceAux (pat rep : Str) :
    ∀ (fuel : Nat) (s : Str) (c : Char),
      c ∈ pyReplaceAux pat rep fuel s → c ∈ s ∨ c ∈ rep := by
  intro fuel
  induction fuel with
  | zero =>
      intro s c h
      cases s with
      | nil => simp [pyReplaceAux] at h
      | cons a rest => exact Or.inl h
  | succ n ih =>
      intro s c h
      cases s with
      | nil => simp [pyReplaceAux] at h
      | cons a rest =>
          simp only [pyReplaceAux] at h
          by_cases hb : (!pat.isEmpty && pat.isPrefixOf (a :: rest)) = true
          · rw [if_pos hb] at h
            rcases List.mem_append.mp h with h1 | h2
            · exact Or.inr h1
            · rcases ih _ c h2 with h3 | h4
              · exact Or.inl (List.mem_of_mem_drop h3)
              · exact Or.inr h4
          · rw [if_neg hb] at h
            rcases List.mem_cons.mp h with h1 | h2
            · exact Or.inl (h1 ▸ List.mem_cons_self a rest)
            · rcases ih rest c h2 with h3 | h4
              · exact Or.inl (List.mem_cons_of_mem a h3)
              · exact Or.inr h4

theorem not_mem_pyReplace (pat rep s : Str) (c : Char)
    (hs : c ∉ s) (hr : c ∉ rep) : c ∉ pyReplace pat rep s := by
  intro h
  rcases mem_pyReplaceAux pat rep s.length s c h with h1 | h2
  · exact hs h1
  · exact hr h2

theorem not_mem_pyReplaceAux_single (c : Char) (rep : Str) (hr : c ∉ rep) :
    ∀ (fuel : Nat) (s : Str), s.length ≤ fuel →
      c ∉ pyReplaceAux [c] rep fuel s := by
  intro fuel
  induction fuel with
  | zero =>
      intro s hs
      have : s = [] := List.length_eq_zero.mp (Nat.le_zero.mp hs)
      subst this
      simp [pyReplaceAux]
  | succ n ih =>
      intro s hs
      cases s with
      | nil => simp [pyReplaceAux]
      | cons a rest =>
          simp only [pyReplaceAux]
          have hpre : [c].isPrefixOf (a :: rest) = (c == a) := by
            simp [List.isPrefixOf]
          by_cases hca : c = a
          · subst hca
            rw [show (!List.isEmpty [c] && [c].isPrefixOf (c :: rest)) = true by
              simp [hpre]]
            simp only [if_true]
            intro hmem
            rcases List.mem_append.mp hmem with h1 | h2
            · exact hr h1
            · have hlen : ((c :: rest).drop 1).length ≤ n := by
                simp at hs ⊢
                omega
              exact ih ((c :: rest).drop (List.length [c])) (by simpa using hlen) h2
          · rw [show (!List.isEmpty [c] && [c].isPrefixOf (a :: rest)) = false by
              simp [hpre]
              exact fun h => absurd h hca]
            simp only [Bool.false_eq_true, if_false]
            intro hmem
            rcases List.mem_cons.mp hmem with h1 | h2
            · exact hca h1
            · exact ih rest (by simp at hs; omega) h2

theorem not_mem_escape_fold (m : List (Str × Str)) :
    ∀ (t : Str) (c : Char), c ∉ t → (∀ q ∈ m, c ∉ q.2) →
      c ∉ m.foldl (fun acc p => pyReplace p.1 p.2 acc) t := by
  induction m with
  | nil => intro t c ht _ h; exact ht h
  | cons q m' ih =>
      intro t c ht hq
      simp only [List.foldl_cons]
      exact ih (pyReplace q.1 q.2 t) c
        (not_mem_pyReplace q.1 q.2 t c ht (hq q (List.mem_cons_self q m')))
        (fun r hr => hq r (List.mem_cons_of_mem q hr))

theorem not_mem_escape_core (m : List (Str × Str)) :
    ∀ (t : Str) (p : Str × Str), p ∈ m →
      (∀ r ∈ m, r.1.length = 1) →
      (∀ r ∈ m, ∀ q ∈ m, ∀ c ∈ r.1, c ∉ q.2) →
      ∀ c ∈ p.1, c ∉ m.foldl (fun acc pr => pyReplace pr.1 pr.2 acc) t := by
  induction m with
  | nil => intro t p hp; exact absurd hp (List.not_mem_nil p)
  | cons q m' ih =>
      intro t p hp hlen hconf c hc
      simp only [List.foldl_cons]
      rcases List.mem_cons.mp hp with rfl | hp'
      · -- p is the head pair: after its own replacement, c is gone for good
        obtain ⟨a, ha⟩ := List.length_eq_one.mp (hlen p (List.mem_cons_self p m'))
        have hca : c = a := by
          have hc' := hc
          rw [ha] at hc'
          simpa using hc'
        subst hca
        have hrep : c ∉ p.2 :=
          hconf p (List.mem_cons_self p m') p (List.mem_cons_self p m') c hc
        have h1 : c ∉ pyReplace p.1 p.2 t := by
          rw [ha]
          exact not_mem_pyReplaceAux_single c p.2 hrep t.length t le_rfl
        exact not_mem_escape_fold m' (pyReplace p.1 p.2 t) c h1
          (fun r hr => hconf p (List.mem_cons_self p m') r
            (List.mem_cons_of_mem p hr) c hc)
      · exact ih (pyReplace q.1 q.2 t) p hp'
          (fun r hr => hlen r (List.mem_cons_of_mem q hr))
          (fun r hr q' hq' => hconf r (List.mem_cons_of_mem q hr) q'
            (List.mem_cons_of_mem q hq'))
          c hc

/-- C6: for every input text and a fixed non-conflicting escape mapping of
single-character keys (no replacement output reuses a character that is a
key of the mapping), escape_latex leaves no raw occurrence of any
configured reserved character; replacements are applied sequentially in
the mapping's insertion order (the fold of the definition). -/
theorem c6_escape_no_reserved (m : List (Str × Str)) (t : Str)
    (hlen : ∀ r ∈ m, r.1.length = 1)
    (hconf : ∀ r ∈ m, ∀ q ∈ m, ∀ c ∈ r.1, c ∉ q.2) :
    ∀ p ∈ m, ∀ c ∈ p.1, c ∉ escape_latex m t := by
  intro p hp c hc
  unfold escape_latex
  by_cases ht : t.isEmpty
  · rw [if_pos ht]
    rw [List.isEmpty_iff.mp ht]
    exact List.not_mem_nil c
  · rw [if_neg ht]
    exact not_mem_escape_core m t p hp hlen hconf c hc

/-- Witness for C6 on a concrete non-conflicting mapping and text. -/
theorem c6_witness :
    '&' ∉ escape_latex [(s2l "&", s2l "AMP"), (s2l "%", s2l "PCT")] (s2l "x&y%z&") :=
  c6_escape_no_reserved [(s2l "&", s2l "AMP"), (s2l "%", s2l "PCT")] (s2l "x&y%z&")
    (by decide) (by decide) (s2l "&", s2l "AMP") (by decide) '&' (by decide)

/-! ## Theorems: C2 -/

/-- The C2 input: the walker's paragraph text sequence, after the document
title has already been seen. -/
def c2Nodes : List Node :=
  [Node.paragraph (mkPara "Présents") [] [] [],
   Node.paragraph (mkPara "Alice") [] [] [],
   Node.paragraph (mkPara "#Bob") [] [] [],
   Node.paragraph (mkPara "") [] [] [],
   Node.paragraph (mkPara "Next") [] [] []]

/-- The walker state with the document title already consumed. -/
def c2Start : WalkSt := { initWalkSt with first_text := some (s2l "T") }

/-- Counterexample for C2: on the claimed input the walker emits the
AttendeeList with names ["Alice", "#Bob"] — the leading `#` is NOT stripped
before buffering, so the buffer is not ["Alice", "Bob"] as claimed. -/
theorem c2_counterexample :
    attendeeNames (c2Nodes.foldl (process_element [] []) c2Start).elements =
        [[s2l "Alice", s2l "#Bob"]] ∧
      [[s2l "Alice", s2l "#Bob"]] ≠ [[s2l "Alice", s2l "Bob"]] := by
  constructor
  · decide
  · decide

/-- C2 amended: processing ["Présents", "Alice", "#Bob", "", "Next"] after
the title has been seen buffers the names verbatim (the marker paragraph is
not buffered), emits exactly one AttendeeList carrying ["Alice", "#Bob"]
when the empty paragraph is reached, returns the state to Normal, and
classifies "Next" as a plain Paragraph element; the single leading `#`
(with surrounding whitespace) is stripped later, by the renderer's
AttendeeList branch, which turns the names into ["Alice", "Bob"]. -/
theorem c2_attendee_flow :
    (c2Nodes.foldl (process_element [] []) c2Start).elements =
        [Elem.present_section [s2l "Alice", s2l "#Bob"], Elem.par (mkPara "Next")] ∧
      (c2Nodes.foldl (process_element [] []) c2Start).in_present = false ∧
      clean_present_names [s2l "Alice", s2l "#Bob"] = [s2l "Alice", s2l "Bob"] := by
  refine ⟨by decide, by decide, by decide⟩

/-! ## Theorems: C4 -/

/-- C4 amended: a Section or Subsection element produces its heading markup
(escaped and first-letter capitalized) whenever the `presentInserted` latch
is down; the element IMMEDIATELY FOLLOWING an AttendeeList (latch up) is
instead consumed whole by the TOC/logo-insertion branch of the renderer's
`elif` chain and produces no heading markup (see the counterexample). -/
theorem c4_section_markup (sections : List Str) (toc : Bool) (subs : List Str)
    (t : Str) (p : Para) :
    renderStep sections ⟨toc, false, subs⟩ (Elem.sec t p) =
        some (generate_section t, ⟨toc, false, subs⟩) ∧
      renderStep sections ⟨toc, false, subs⟩ (Elem.subsec t p) =
        some (generate_subsection t, ⟨toc, false, subs⟩) :=
  ⟨rfl, rfl⟩

set_option maxRecDepth 100000 in
/-- Counterexample for C4: a Section element immediately following an
AttendeeList element is swallowed by the TOC-insertion branch — the
rendered document contains no section heading markup at all. -/
theorem c4_counterexample :
    (writeLatexFile
        [Elem.present_section [s2l "A"], Elem.sec (s2l "Budget") (mkPara "1) Budget")]
        [] [] (s2l "T")).map
      (fun pr => listContains (s2l "\\section\x7b") pr.1) = some false := by
  decide

/-! ## Theorems: C5 -/

theorem dropWhile_dropWhile (p : Char → Bool) (l : Str) :
    List.dropWhile p (List.dropWhile p l) = List.dropWhile p l := by
  induction l with
  | nil => rfl
  | cons a l ih =>
      by_cases h : p a = true
      · simp [List.dropWhile_cons, h, ih]
      · simp [List.dropWhile_cons, h]

theorem pyRStrip_idem (s : Str) : pyRStrip (pyRStrip s) = pyRStrip s := by
  simp [pyRStrip, List.reverse_reverse, dropWhile_dropWhile]

theorem rstrip_prefix_of_self (u : Str) : pyRStrip u <+: u := by
  apply List.reverse_suffix.mp
  rw [pyRStrip, List.reverse_reverse]
  exact List.dropWhile_suffix _

theorem prefix_noLead {u w : Str} (hu : pyLStrip u = u) (hw : w <+: u) :
    pyLStrip w = w := by
  cases w with
  | nil => rfl
  | cons a t =>
      obtain ⟨r, hr⟩ := hw
      have ha : isSpaceB a = false := by
        by_contra hcon
        have ha' : isSpaceB a = true := by
          cases hx : isSpaceB a
          · exact absurd hx hcon
          · rfl
        rw [← hr] at hu
        unfold pyLStrip at hu
        rw [List.cons_append, List.dropWhile_cons, if_pos ha'] at hu
        have hle := (List.dropWhile_suffix (l := t ++ r) isSpaceB).length_le
        have hL := congrArg List.length hu
        rw [List.length_cons] at hL
        omega
      unfold pyLStrip
      rw [List.dropWhile_cons, if_neg (by simp [ha])]

theorem pyStrip_idem (s : Str) : pyStrip (pyStrip s) = pyStrip s := by
  unfold pyStrip
  have h1 : pyLStrip (pyLStrip s) = pyLStrip s := dropWhile_dropWhile _ _
  have h2 : pyLStrip (pyRStrip (pyLStrip s)) = pyRStrip (pyLStrip s) :=
    prefix_noLead h1 (rstrip_prefix_of_self _)
  rw [h2, pyRStrip_idem]

theorem cleared_runs_text (rs : List Run) :
    (rs.map (fun run => { run with text := ([] : Str) })).foldr
      (fun r acc => r.text ++ acc) [] = [] := by
  induction rs with
  | nil => rfl
  | cons r rs ih => simp [ih]

theorem distribute_go_text (newLen total : Nat) :
    ∀ (runs : List Run) (rem : Str), runs ≠ [] →
      (distribute_go newLen total runs rem).foldr (fun r acc => r.text ++ acc) [] = rem := by
  intro runs
  induction runs with
  | nil => intro rem h; exact absurd rfl h
  | cons r rs ih =>
      intro rem _
      cases rs with
      | nil =>
          by_cases hrem : rem.isEmpty = true
          · rw [List.isEmpty_iff.mp hrem]
            simp [distribute_go]
          · simp [distribute_go, hrem]
      | cons r2 rs2 =>
          by_cases hrem : rem.isEmpty = true
          · rw [List.isEmpty_iff.mp hrem]
            simp only [distribute_go, List.isEmpty_nil, if_true, List.foldr_cons]
            rw [ih [] (by simp)]
            rfl
          · simp only [distribute_go, hrem, Bool.false_eq_true, if_false,
              List.foldr_cons]
            rw [ih _ (by simp)]
            exact List.take_append_drop _ rem

theorem update_paragraph_text_text (p : Para) (t : Str) :
    (update_paragraph_text p t).text = t := by
  obtain ⟨runs⟩ := p
  match runs with
  | [] => simp [update_paragraph_text, Para.text]
  | [r] => simp [update_paragraph_text, Para.text]
  | r :: r2 :: rs2 =>
      simp only [update_paragraph_text]
      by_cases htot :
          ((List.map (fun run => run.text.length) (r :: r2 :: rs2)).sum) = 0
      · rw [if_pos htot]
        simp only [Para.text, List.foldr_cons]
        rw [cleared_runs_text]
        simp
      · rw [if_neg htot]
        simp only [Para.text]
        exact distribute_go_text _ _ _ t (by simp)

theorem apply_corrections_strip (batch : List Para) :
    (apply_corrections batch (batch.map (fun p => pyStrip p.text))).map Para.text =
      batch.map (fun p => pyStrip p.text) := by
  induction batch with
  | nil => rfl
  | cons p ps ih =>
      simp only [List.map_cons, apply_corrections]
      rw [update_paragraph_text_text, pyStrip_idem, ih]

/-- C5 amended: at the correction-service boundary, when the API call
raises, no exception propagates (the failure is caught and the original
joined text is returned), and — provided no batch text contains the
separator (the split/join round-trip hypothesis) and the batch has some
non-whitespace text — every paragraph's text is set to its STRIPPED
original; paragraphs whose text was already stripped are left unmodified,
but surrounding whitespace is lost (see the counterexample). -/
theorem c5_failure_keeps_stripped_text (batch : List Para)
    (hsplit : pySplit BATCH_SEPARATOR
        (pyJoin BATCH_SEPARATOR (batch.map (fun p => pyStrip p.text))) =
      batch.map (fun p => pyStrip p.text))
    (hne : pyJoin BATCH_SEPARATOR (batch.map (fun p => pyStrip p.text)) ≠ []) :
    (correct_batch (fun _ => Except.error ()) batch).map Para.text =
      batch.map (fun p => pyStrip p.text) := by
  have hb : batch ≠ [] := by
    rintro rfl
    exact hne rfl
  unfold correct_batch
  rw [if_neg (by simp [List.isEmpty_iff, hb])]
  simp only [call_correction_api]
  rw [if_neg (by simp [List.isEmpty_iff, hne])]
  rw [hsplit]
  exact apply_corrections_strip batch

/-- Counterexample for C5: on API failure a paragraph whose text is
" hello " is NOT left unmodified — its text becomes the stripped "hello". -/
theorem c5_counterexample :
    (correct_batch (fun _ => Except.error ()) [mkPara " hello "]).map Para.text ≠
      [mkPara " hello "].map Para.text := by
  decide

/-- Witness for C5 at a concrete one-paragraph batch. -/
theorem c5_witness :
    (correct_batch (fun _ => Except.error ()) [mkPara "hello"]).map Para.text =
      [mkPara "hello"].map (fun p => pyStrip p.text) :=
  c5_failure_keeps_stripped_text [mkPara "hello"] (by decide) (by decide)

/-! ## Theorems: C7 -/

@[simp] theorem titlesOf_nil : titlesOf [] = [] := rfl

@[simp] theorem titlesOf_cons_table (d : List (List Str)) (es : List Elem) :
    titlesOf (Elem.table d :: es) = titlesOf es := rfl

@[simp] theorem titlesOf_cons_image (a : Str) (w hh : Option ℚ) (es : List Elem) :
    titlesOf (Elem.image a w hh :: es) = titlesOf es := rfl

@[simp] theorem titlesOf_cons_present (ns : List Str) (es : List Elem) :
    titlesOf (Elem.present_section ns :: es) = titlesOf es := rfl

@[simp] theorem titlesOf_cons_start (t : Str) (es : List Elem) :
    titlesOf (Elem.start_text t :: es) = titlesOf es := rfl

@[simp] theorem titlesOf_cons_sec (t : Str) (p : Para) (es : List Elem) :
    titlesOf (Elem.sec t p :: es) = titlesOf es := rfl

@[simp] theorem titlesOf_cons_subsec (t : Str) (p : Para) (es : List Elem) :
    titlesOf (Elem.subsec t p :: es) = titlesOf es := rfl

@[simp] theorem titlesOf_cons_par (p : Para) (es : List Elem) :
    titlesOf (Elem.par p :: es) = titlesOf es := rfl

@[simp] theorem titlesOf_cons_title (t : Str) (es : List Elem) :
    titlesOf (Elem.title t :: es) = t :: titlesOf es := rfl

@[simp] theorem titlesOf_append (a b : List Elem) :
    titlesOf (a ++ b) = titlesOf a ++ titlesOf b := by
  simp [titlesOf, List.filterMap_append]

@[simp] theorem titlesOf_images (imap : List (Str × Str)) (rids : List Str)
    (cxs cys : List Nat) : titlesOf (images_for imap rids cxs cys) = [] := by
  rw [titlesOf, List.filterMap_eq_nil_iff]
  intro e he
  rcases List.mem_filterMap.mp he with ⟨pr, -, hf⟩
  rcases hlk : lookupMap imap pr.2 with - | path <;> rw [hlk] at hf
  · simp at hf
  · rcases hcx : cxs.get? pr.1 with - | cx <;> rcases hcy : cys.get? pr.1 with - | cy <;>
        rw [hcx, hcy] at hf
    all_goals first
      | (simp at hf; subst hf; rfl)
      | (simp at hf; split at hf <;> (simp at hf; subst hf; rfl))

theorem step_keeps_titles_of_some (tables : List Table) (imap : List (Str × Str))
    (st : WalkSt) (n : Node) (x : Str) (h : st.first_text = some x) :
    (process_element tables imap st n).first_text = some x ∧
    titlesOf (process_element tables imap st n).elements = titlesOf st.elements := by
  cases n with
  | tbl =>
      simp only [process_element]
      split
      · exact ⟨h, by rw [titlesOf_append]; simp [titlesOf]⟩
      · exact ⟨h, rfl⟩
  | paragraph p rids cxs cys =>
      simp only [process_element]
      split
      · rename_i hc
        exfalso
        have hc1 := hc.1
        simp [h] at hc1
      · constructor <;>
        · repeat' split
          all_goals simp [h]

theorem walk_keeps_titles_of_some (tables : List Table) (imap : List (Str × Str)) :
    ∀ (nodes : List Node) (st : WalkSt) (x : Str), st.first_text = some x →
      titlesOf (nodes.foldl (process_element tables imap) st).elements =
        titlesOf st.elements := by
  intro nodes
  induction nodes with
  | nil => intro st x h; rfl
  | cons n rest ih =>
      intro st x h
      simp only [List.foldl_cons]
      obtain ⟨h1, h2⟩ := step_keeps_titles_of_some tables imap st n x h
      rw [ih (process_element tables imap st n) x h1, h2]

theorem step_none_empty (tables : List Table) (imap : List (Str × Str))
    (st : WalkSt) (p : Para) (rids : List Str) (cxs cys : List Nat)
    (h : st.first_text = none) (ht : pyStrip p.text = []) :
    (process_element tables imap st (.paragraph p rids cxs cys)).first_text = none ∧
    titlesOf (process_element tables imap st (.paragraph p rids cxs cys)).elements =
      titlesOf st.elements := by
  constructor <;>
  · simp only [process_element, ht]
    repeat' split
    all_goals simp_all

theorem step_none_title (tables : List Table) (imap : List (Str × Str))
    (st : WalkSt) (p : Para) (rids : List Str) (cxs cys : List Nat)
    (h : st.first_text = none) (ht : pyStrip p.text ≠ []) :
    process_element tables imap st (.paragraph p rids cxs cys) =
      { st with
        elements := st.elements ++ images_for imap rids cxs cys ++
          [Elem.title (pyStrip p.text)],
        first_text := some (pyStrip p.text) } := by
  simp only [process_element]
  split
  · rfl
  · rename_i hc
    exfalso
    apply hc
    constructor
    · simp [h]
    · exact ht

theorem walk_first_title (tables : List Table) (imap : List (Str × Str)) :
    ∀ (nodes : List Node) (st : WalkSt) (t : Str), st.first_text = none →
      firstNonemptyText nodes = some t →
      titlesOf (nodes.foldl (process_element tables imap) st).elements =
        titlesOf st.elements ++ [t] := by
  intro nodes
  induction nodes with
  | nil => intro st t h hf; simp [firstNonemptyText] at hf
  | cons n rest ih =>
      intro st t h hf
      cases n with
      | tbl =>
          simp only [firstNonemptyText] at hf
          simp only [List.foldl_cons]
          have hstep : (process_element tables imap st Node.tbl).first_text = none ∧
              titlesOf (process_element tables imap st Node.tbl).elements =
                titlesOf st.elements := by
            simp only [process_element]
            split
            · exact ⟨h, by rw [titlesOf_append]; simp [titlesOf]⟩
            · exact ⟨h, rfl⟩
          rw [ih _ t hstep.1 hf, hstep.2]
      | paragraph p rids cxs cys =>
          by_cases ht : pyStrip p.text = []
          · simp only [firstNonemptyText, ht, List.isEmpty_nil, if_true] at hf
            simp only [List.foldl_cons]
            obtain ⟨h1, h2⟩ := step_none_empty tables imap st p rids cxs cys h ht
            rw [ih _ t h1 hf, h2]
          · have hne : (pyStrip p.text).isEmpty = false := by
              cases hx : pyStrip p.text
              · exact absurd hx ht
              · rfl
            simp only [firstNonemptyText, hne, Bool.false_eq_true, if_false,
              Option.some.injEq] at hf
            simp only [List.foldl_cons]
            rw [step_none_title tables imap st p rids cxs cys h ht]
            rw [walk_keeps_titles_of_some tables imap rest _ (pyStrip p.text) rfl]
            rw [titlesOf_append, titlesOf_append, titlesOf_images]
            simp [titlesOf, hf]

/-- C7: exactly one Title element is emitted per traversal, carrying the
stripped text of the first paragraph whose stripped text is non-empty; the
first-text branch fires BEFORE the attendee-marker and header
classification, so that paragraph is consumed as the Title regardless of
any pattern it matches and yields no other element (beyond the
independently scraped Image elements of the same paragraph node). -/
theorem c7_unique_title :
    (∀ (nodes : List Node) (tables : List Table) (imap : List (Str × Str)) (t : Str),
        firstNonemptyText nodes = some t →
        titlesOf (process_document nodes tables imap).elements = [t]) ∧
    (∀ (tables : List Table) (imap : List (Str × Str)) (st : WalkSt) (p : Para)
        (rids : List Str) (cxs cys : List Nat),
        st.first_text = none → pyStrip p.text ≠ [] →
        process_element tables imap st (.paragraph p rids cxs cys) =
          { st with
            elements := st.elements ++ images_for imap rids cxs cys ++
              [Elem.title (pyStrip p.text)],
            first_text := some (pyStrip p.text) }) := by
  constructor
  · intro nodes tables imap t hf
    have hw := walk_first_title tables imap nodes initWalkSt t rfl hf
    simpa [process_document, titlesOf, initWalkSt] using hw
  · intro tables imap st p rids cxs cys h ht
    exact step_none_title tables imap st p rids cxs cys h ht

/-- Witness for C7: a blank paragraph followed by one matching the section
pattern still becomes the Title; a first paragraph matching the attendee
marker is consumed as the Title, not as a marker. -/
theorem c7_witness :
    titlesOf (process_document
        [Node.paragraph (mkPara " ") [] [] [],
         Node.paragraph (mkPara "1) Hello") [] [] []] [] []).elements =
      [s2l "1) Hello"] ∧
    process_element [] [] initWalkSt (.paragraph (mkPara "Présents") [] [] []) =
      { initWalkSt with
        elements := initWalkSt.elements ++ images_for [] [] [] [] ++
          [Elem.title (pyStrip (mkPara "Présents").text)],
        first_text := some (pyStrip (mkPara "Présents").text) } :=
  ⟨c7_unique_title.1
      [Node.paragraph (mkPara " ") [] [] [], Node.paragraph (mkPara "1) Hello") [] [] []]
      [] [] (s2l "1) Hello") (by decide),
   c7_unique_title.2 [] [] initWalkSt (mkPara "Présents") [] [] [] rfl (by decide)⟩

/-! ## Theorems: C1 -/

theorem toc_consume_nil (sect : Str) : toc_consume sect [] = some ([], []) := rfl

theorem toc_section_lines_nil (secs : List Str) :
    toc_section_lines secs [] =
      some (secs.map (fun s =>
        s2l "\\textbf\x7b- " ++ capitalize_first_letter (escape s) ++ s2l "\x7d\\\\ "),
        []) := by
  induction secs with
  | nil => rfl
  | cons s rest ih => simp [toc_section_lines, toc_consume, ih]

theorem generate_toc_nil (secs : List Str) :
    (generate_toc secs []).map Prod.snd = some [] := by
  by_cases h : secs.isEmpty = true
  · simp [generate_toc, h]
  · simp only [generate_toc, h, Bool.false_eq_true, if_false]
    rw [toc_section_lines_nil]
    rfl

theorem toc_branch_nil (secs : List Str) (st : RState) (h : st.subs = []) :
    ∃ c st', toc_branch secs st = some (c, st') ∧ st'.subs = [] := by
  unfold toc_branch
  split
  · rw [h]
    have hg := generate_toc_nil secs
    cases he : generate_toc secs [] with
    | none => rw [he] at hg; simp at hg
    | some pr =>
        obtain ⟨out, subs1⟩ := pr
        rw [he] at hg
        simp at hg
        exact ⟨_, _, rfl, hg⟩
  · exact ⟨[], ⟨st.toc_inserted, false, st.subs⟩, rfl, h⟩

theorem renderStep_nil (secs : List Str) (st : RState) (e : Elem) (h : st.subs = []) :
    ∃ c st', renderStep secs st e = some (c, st') ∧ st'.subs = [] := by
  cases e with
  | title t => exact ⟨_, st, rfl, h⟩
  | table d => exact ⟨_, st, rfl, h⟩
  | image a w hh => exact ⟨_, st, rfl, h⟩
  | present_section ns => exact ⟨_, ⟨st.toc_inserted, true, st.subs⟩, rfl, h⟩
  | start_text t => exact toc_branch_nil secs st h
  | sec t p =>
      simp only [renderStep]
      split
      · exact toc_branch_nil secs st h
      · exact ⟨_, st, rfl, h⟩
  | subsec t p =>
      simp only [renderStep]
      split
      · exact toc_branch_nil secs st h
      · exact ⟨_, st, rfl, h⟩
  | par p =>
      simp only [renderStep]
      split
      · exact toc_branch_nil secs st h
      · exact ⟨_, st, rfl, h⟩

theorem renderElems_nil (secs : List Str) :
    ∀ (els : List Elem) (st : RState), st.subs = [] →
      ∃ out st', renderElems secs st els = some (out, st') ∧ st'.subs = [] := by
  intro els
  induction els with
  | nil => intro st h; exact ⟨[], st, rfl, h⟩
  | cons e rest ih =>
      intro st h
      obtain ⟨c, st1, hstep, h1⟩ := renderStep_nil secs st e h
      obtain ⟨out, st2, hrest, h2⟩ := ih st1 h1
      refine ⟨c ++ out, st2, ?_, h2⟩
      simp [renderElems, hstep, hrest]

/-- C1 (amended): a single run of the renderer is a deterministic function
of the element sequence, outline and title, but the renderer destructively
consumes the subsection outline while emitting the table of contents;
rendering twice is guaranteed byte-identical when no subsections are
consumed — in particular, with an empty subsection outline the renderer
leaves its inputs untouched and a second run over its leftover state
reproduces the identical bytes.  With a non-empty consumed subsection
outline the second run differs (see the counterexample). -/
theorem c1_render_pure_when_no_subsections (els : List Elem) (secs : List Str)
    (ttl : Str) :
    writeLatexFile els secs [] ttl =
      (writeLatexFile els secs [] ttl).bind
        (fun pr => writeLatexFile els secs pr.2 ttl) := by
  obtain ⟨out, st', hre, hsubs⟩ := renderElems_nil secs els ⟨false, false, []⟩ rfl
  have hW : writeLatexFile els secs [] ttl =
      some (generate_document_header ++ generate_title_header ttl ++ s2l "\n\n" ++
        out ++ generate_document_footer, st'.subs) := by
    simp only [writeLatexFile, hre]
  rw [hsubs] at hW
  rw [hW]
  show some _ = writeLatexFile els secs [] ttl
  exact hW.symm

/-- The C1 counterexample data: an attendee block followed by a start-text
marker, with an outline owning one subsection. -/
def c1Els : List Elem := [Elem.present_section [s2l "A"], Elem.start_text (s2l "__B")]

/-- The C1 counterexample section outline. -/
def c1Secs : List Str := [s2l "S"]

/-- The C1 counterexample subsection outline: the pair (owner, title). -/
def c1Subs : List Str := [s2l "S", s2l "Sub"]

set_option maxRecDepth 100000 in
/-- Counterexample for C1: running _write_latex_file twice over the same
processed document data is NOT byte-identical — the first run consumes the
subsection outline while emitting the TOC, so the second run renders a TOC
without the subsection line. -/
theorem c1_counterexample :
    ((writeLatexFile c1Els c1Secs c1Subs (s2l "T")).bind
        (fun pr => writeLatexFile c1Els c1Secs pr.2 (s2l "T"))).map Prod.fst ≠
      (writeLatexFile c1Els c1Secs c1Subs (s2l "T")).map Prod.fst := by
  decide

end AutoPVCBB
